import Mathlib

/-!
Verification of the hybrid retrieval and index-caching engine of the
rag-sintari repository.  The Python sources are shallowly embedded:

* `src/ingest/chunker.py`    → `chunkText` and friends
* `src/rag/index.py`         → `InMemoryIndex` operations (`addItems`, `queryIndex`)
* `src/rag/retriever.py`     → `Retriever.retrieve`, its scope filter
  `allowedItem` and min-max normalisation `normScores`
* `src/rag/reranker.py`      → `CrossEncoderReranker.rerank` / `_score_single`
* `src/rag/index_store.py`   → `saveIndex`, `loadIndex`, `needsRebuild`

Python floats are modelled as real numbers (where `np.linalg.norm`, i.e. a
square root, is involved) or as rationals (for the purely arithmetical
reranker / persistence code); `astype(np.float32)` rounding is modelled as
the identity.  External collaborators (the OpenAI embeddings client and the
relevance oracle) are passed in as function parameters, mirroring the
dependency injection in the sources.  The `rank_bm25` library function
`BM25Okapi` is a third-party dependency; it is modelled below from the
library's published algorithm.
-/

namespace RagSintari

/-! ## Python-style primitives -/

/-- Truthiness of an optional string: Python treats both `None` and the
empty string as falsy. -/
def truthyOptStr : Option String → Option String
  | some s => if s = "" then none else some s
  | none => none

/-- Python `a or b` on strings (empty string is falsy). -/
def pyOrStr (a b : String) : String := if a = "" then b else a

/-- Python `a or b` where `a` is an optional string and the fallback `b` is
returned unchanged (it may itself be `None` or empty). -/
def pyOrOpt (a b : Option String) : Option String :=
  match truthyOptStr a with
  | some s => some s
  | none => b

/-- Python `a or b` on optional ints; `0` is falsy. -/
def pyOrOptInt (a b : Option Int) : Option Int :=
  match a with
  | some n => if n = 0 then b else some n
  | none => b

/-- Accumulator-based splitter behind `pySplit`. -/
def wordsAux : List Char → List Char → List (List Char)
  | [], acc => if acc = [] then [] else [acc.reverse]
  | c :: rest, acc =>
    if c.isWhitespace then
      if acc = [] then wordsAux rest [] else acc.reverse :: wordsAux rest []
    else wordsAux rest (c :: acc)

/-- Python `str.split()` with no argument: split on whitespace runs and
drop empty pieces. -/
def pySplit (s : String) : List String :=
  (wordsAux s.toList []).map (fun cs => String.mk cs)

/-- Python `" ".join(words)`. -/
def joinSpace (l : List String) : String :=
  String.mk (((l.map String.toList).intersperse [' ']).flatten)

/-- Python `str.strip()`: drop leading and trailing whitespace. -/
def pyStrip (s : String) : String :=
  String.mk (((s.toList.dropWhile Char.isWhitespace).reverse.dropWhile Char.isWhitespace).reverse)

/-- Python `raw.replace(",", ".")` (single-character pattern). -/
def commaToDot (s : String) : String :=
  String.mk (s.toList.map (fun c => if c = ',' then '.' else c))

/-- Decimal digits to a natural number. -/
def digitsToNat (cs : List Char) : Nat :=
  cs.foldl (fun n c => n * 10 + (c.toNat - ('0').toNat)) 0

/-- Optional leading sign of a numeric literal. -/
def parseSign : List Char → Int × List Char
  | '+' :: rest => (1, rest)
  | '-' :: rest => (-1, rest)
  | cs => (1, cs)

/-- Mantissa of a Python float literal: optional sign, digits, optional
single dot with fractional digits; at least one digit overall. -/
def parseMantissa (cs : List Char) : Option ℚ :=
  let sg := parseSign cs
  let ip := sg.2.takeWhile Char.isDigit
  let rest := sg.2.dropWhile Char.isDigit
  match rest with
  | [] => if ip = [] then none else some ((sg.1 : ℚ) * digitsToNat ip)
  | '.' :: frac =>
    if frac.all Char.isDigit ∧ (ip ≠ [] ∨ frac ≠ []) then
      some ((sg.1 : ℚ) * ((digitsToNat ip : ℚ) + (digitsToNat frac : ℚ) / 10 ^ frac.length))
    else none
  | _ => none

/-- Exponent part of a float literal (after `e`/`E`). -/
def parseExp (cs : List Char) : Option Int :=
  let sg := parseSign cs
  if sg.2 ≠ [] ∧ sg.2.all Char.isDigit then some (sg.1 * digitsToNat sg.2) else none

/-- Model of Python's builtin `float(str)` on finite decimal literals
(the special forms `inf`/`nan` and digit-group underscores are treated as
unparsable; the reranker only conditions on parse failure, never on those
values). -/
def parseFloat (s : String) : Option ℚ :=
  let cs := s.toList
  let mant := cs.takeWhile (fun c => c ≠ 'e' ∧ c ≠ 'E')
  let rest := cs.dropWhile (fun c => c ≠ 'e' ∧ c ≠ 'E')
  match rest with
  | [] => parseMantissa mant
  | _ :: expPart =>
    match parseMantissa mant, parseExp expPart with
    | some m, some e => some (m * 10 ^ e)
    | _, _ => none

/-- Python's stable `sorted(..., key=key, reverse=True)` / `list.sort(...)`:
stable descending sort by a key, modelled by insertion sort (which is
stable and places an element before a later one exactly when its key is
at least as large). -/
def pySortDesc {β K : Type} [LinearOrder K] (key : β → K) (l : List β) : List β :=
  List.insertionSort (fun u v => key v ≤ key u) l

/-! ## Chunker — `src/ingest/chunker.py`, `chunk_text` -/

/-- One chunk record produced by `chunk_text`.  The Python dict stores the
joined text; the word window `words` (called `segment` in the source) is
kept alongside so that word coverage can be stated. -/
structure Chunk where
  chunk_index : Nat
  is_first : Bool
  is_last : Bool
  words : List String
  text : String
deriving DecidableEq

/-- `step = max(1, target_tokens - overlap_tokens)`. -/
def chunkStep (target overlap : Nat) : Nat := max 1 (target - overlap)

/-- The `while i < total_words` loop of `chunk_text`; `idx` counts chunks
emitted so far (`chunk_index` in the source, incremented before use). -/
def chunkLoop (ws : List String) (target overlap : Nat) (i idx : Nat) : List Chunk :=
  if _h : i < ws.length then
    let segment := (ws.drop i).take target
    let c : Chunk :=
      { chunk_index := idx + 1
        is_first := decide (i = 0)
        is_last := decide (ws.length ≤ i + target)
        words := segment
        text := joinSpace segment }
    if ws.length ≤ i + target then [c]
    else c :: chunkLoop ws target overlap (i + chunkStep target overlap) (idx + 1)
  else []
termination_by ws.length - i
decreasing_by
  have h1 : 1 ≤ chunkStep target overlap := le_max_left _ _
  omega

/-- `chunk_text(text, target_tokens, overlap_tokens)`. -/
def chunkText (text : String) (target_tokens overlap_tokens : Nat) : List Chunk :=
  let ws := pySplit text
  if ws = [] then [] else chunkLoop ws target_tokens overlap_tokens 0 0

/-! ## Vector index — `src/rag/index.py` -/

/-- The metadata dict attached to an index item; the fields the engine
reads are modelled explicitly (`method` is the extra key written by the
retriever into each returned copy). -/
structure Metadata where
  workspace_id : Option String := none
  document_name : Option String := none
  document_id : Option String := none
  text : String := ""
  method : Option String := none
deriving DecidableEq

/-- `IndexItem` dataclass. -/
structure IndexItem where
  id : String
  embedding : List ℝ
  metadata : Metadata

/-- `IndexHit` dataclass. -/
structure IndexHit where
  id : String
  score : ℝ
  metadata : Metadata

/-- Sum of squares of a vector (the square of `np.linalg.norm`). -/
def sumSq (v : List ℝ) : ℝ := (v.map (fun x => x * x)).sum

/-- `float(np.linalg.norm(v))`. -/
noncomputable def l2norm (v : List ℝ) : ℝ := Real.sqrt (sumSq v)

/-- `np.dot` on equal-length vectors. -/
def dotR (a b : List ℝ) : ℝ := (List.zipWith (fun x y => x * y) a b).sum

/-- `norm = float(np.linalg.norm(emb)) or 1.0; emb = emb / norm` — the
normalisation applied by `InMemoryIndex.add` and `InMemoryIndex.query`
(`0.0` is falsy, so a zero-norm vector is divided by `1.0`). -/
noncomputable def normalizeEmb (v : List ℝ) : List ℝ :=
  let n := l2norm v
  let d := if n = 0 then 1 else n
  v.map (fun x => x / d)

/-- The item actually stored by `InMemoryIndex.add` (the `astype(np.float32)`
cast is modelled as the identity). -/
noncomputable def addStored (normalize : Bool) (item : IndexItem) : IndexItem :=
  { item with embedding := if normalize then normalizeEmb item.embedding else item.embedding }

/-- Python dict assignment `self._items[item.id] = ...` on an
insertion-ordered association list: replace in place if present, else
append. -/
def upsert (l : List (String × IndexItem)) (k : String) (v : IndexItem) :
    List (String × IndexItem) :=
  match l with
  | [] => [(k, v)]
  | (k0, v0) :: rest => if k0 = k then (k, v) :: rest else (k0, v0) :: upsert rest k v

/-- `InMemoryIndex.add(items)`. -/
noncomputable def addItems (normalize : Bool) (store : List (String × IndexItem))
    (new : List IndexItem) : List (String × IndexItem) :=
  new.foldl (fun acc it => upsert acc it.id (addStored normalize it)) store

/-- `meta.get(key)` for the string-valued metadata fields used by filters. -/
def metaGet (md : Metadata) : String → Option String
  | "workspace_id" => md.workspace_id
  | "document_name" => md.document_name
  | "document_id" => md.document_id
  | "method" => md.method
  | "text" => some md.text
  | _ => none

/-- `_match_filter(meta, flt)`: conjunction of exact field matches. -/
def matchFilter (md : Metadata) (flt : List (String × String)) : Bool :=
  flt.all (fun kv => metaGet md kv.1 = some kv.2)

/-- `InMemoryIndex.query(embedding, top_k, filter)`. -/
noncomputable def queryIndex (normalize : Bool) (items : List (String × IndexItem))
    (embedding : List ℝ) (top_k : Nat) (flt : List (String × String)) : List IndexHit :=
  if items.isEmpty then []
  else
    let q := if normalize then normalizeEmb embedding else embedding
    let hits := (items.map Prod.snd).filterMap (fun it =>
      if !flt.isEmpty && !matchFilter it.metadata flt then none
      else some { id := it.id, score := dotR q it.embedding, metadata := it.metadata })
    (pySortDesc IndexHit.score hits).take top_k

/-! ## BM25 — external `rank_bm25.BM25Okapi`, modelled from the library
(`k1 = 1.5`, `b = 0.75`, `epsilon = 0.25`).  The per-word idf is a pure
function of the corpus, so the dict-building passes of the library are
modelled as functions over the (first-occurrence ordered) vocabulary. -/

/-- Distinct words in first-occurrence order. -/
def dedupWords (l : List String) : List String :=
  l.foldl (fun acc w => if w ∈ acc then acc else acc ++ [w]) []

/-- Vocabulary of a tokenised corpus (keys of the library's `nd` dict). -/
def vocabOf (corpus : List (List String)) : List String := dedupWords corpus.flatten

/-- Number of corpus documents containing `w` (`nd[w]`). -/
def docFreq (corpus : List (List String)) (w : String) : Nat :=
  corpus.countP (fun doc => decide (w ∈ doc))

/-- `idf = log(corpus_size - freq + 0.5) - log(freq + 0.5)`. -/
noncomputable def idfRaw (csize freq : Nat) : ℝ :=
  Real.log ((csize : ℝ) - (freq : ℝ) + 1 / 2) - Real.log ((freq : ℝ) + 1 / 2)

/-- `average_idf`: mean of the raw idf over the vocabulary. -/
noncomputable def bm25AvgIdf (corpus : List (List String)) : ℝ :=
  ((vocabOf corpus).map (fun w => idfRaw corpus.length (docFreq corpus w))).sum /
    ((vocabOf corpus).length : ℝ)

/-- Final idf: negative raw idf values are replaced by
`epsilon * average_idf`. -/
noncomputable def bm25Idf (corpus : List (List String)) (w : String) : ℝ :=
  let r := idfRaw corpus.length (docFreq corpus w)
  if r < 0 then (1 / 4) * bm25AvgIdf corpus else r

/-- `BM25Okapi(corpus).get_scores(query)`: per-document score
`Σ_q (idf.get(q) or 0) * q_freq*(k1+1) / (q_freq + k1*(1 - b + b*dl/avgdl))`. -/
noncomputable def bm25GetScores (corpus : List (List String)) (query : List String) : List ℝ :=
  let avgdl : ℝ := ((corpus.map List.length).sum : ℝ) / (corpus.length : ℝ)
  corpus.map (fun doc =>
    (query.map (fun q =>
      (if q ∈ vocabOf corpus then bm25Idf corpus q else 0) *
        ((doc.count q : ℝ) * (3 / 2 + 1)) /
          ((doc.count q : ℝ) + (3 / 2) * (1 - 3 / 4 + (3 / 4) * (doc.length : ℝ) / avgdl)))).sum)

/-! ## Hybrid retriever — `src/rag/retriever.py` -/

/-- The configuration fields `Retriever.__init__` reads from `load_config`
(`top_k`, `mode`, `hybrid.alpha`, `hybrid.beta`). -/
structure RetrieverCfg where
  top_k : Nat
  mode : String
  alpha : ℝ
  beta : ℝ

/-- One element of the list returned by `Retriever.retrieve`. -/
structure RetrieveResult where
  text : String
  score : ℝ
  metadata : Metadata

/-- `min(scores)` (Python `min` on a non-empty list; `0` on `[]`, unused). -/
def sMinOf {α : Type} [LinearOrderedField α] : List α → α
  | [] => 0
  | s :: rest => rest.foldl min s

/-- `max(scores)`. -/
def sMaxOf {α : Type} [LinearOrderedField α] : List α → α
  | [] => 0
  | s :: rest => rest.foldl max s

/-- The inner `norm(scores)` function of `Retriever.retrieve`: min-max
normalisation with the `s_max - s_min < 1e-9` degenerate branch. -/
def normScores {α : Type} [LinearOrderedField α] (scores : List α) : List α :=
  if scores = [] then []
  else
    let s_min := sMinOf scores
    let s_max := sMaxOf scores
    if s_max - s_min < 1 / 1000000000 then
      scores.map (fun _ => if s_max = 0 then 0 else 1)
    else
      scores.map (fun s => (s - s_min) / (s_max - s_min))

/-- The inner `allowed(item)` predicate of `Retriever.retrieve`: the
workspace check is skipped when `workspace_id` is falsy, and the
document check compares `document_name or document_id` against the
allow-list (skipped when the list is falsy, i.e. empty). -/
def allowedItem (workspace_id : Option String) (document_ids : List String)
    (it : IndexItem) : Bool :=
  (match truthyOptStr workspace_id with
   | some s => decide (it.metadata.workspace_id = some s)
   | none => true) &&
  (if document_ids = [] then true
   else
     match pyOrOpt it.metadata.document_name it.metadata.document_id with
     | some dn => decide (dn ∈ document_ids)
     | none => false)

/-- `Retriever.retrieve(question, workspace_id, document_ids)`.  The
embeddings client is external; `qEmbRaw` is the vector it returns for
`[question]` (`embed_texts` output, before normalisation). -/
noncomputable def retrieve (cfg : RetrieverCfg) (items : List IndexItem) (qEmbRaw : List ℝ)
    (question : String) (workspace_id : Option String) (document_ids : List String) :
    List RetrieveResult :=
  let candidates := items.filter (allowedItem workspace_id document_ids)
  if candidates.isEmpty then []
  else
    let q_norm := l2norm qEmbRaw
    let q_emb := qEmbRaw.map (fun x => x / (if q_norm = 0 then 1 else q_norm))
    let texts := candidates.map (fun it => it.metadata.text)
    let tokens := texts.map (fun t => pySplit t.toLower)
    let bm25_scores :=
      if tokens = [] then List.replicate candidates.length (0 : ℝ)
      else bm25GetScores tokens (pySplit question.toLower)
    let emb_scores := candidates.map (fun it =>
      if it.embedding = [] then (0 : ℝ) else dotR q_emb it.embedding)
    let bm25_norm := normScores bm25_scores
    let emb_norm := normScores emb_scores
    let combined :=
      if cfg.mode = "bm25" then bm25_norm
      else if cfg.mode = "hybrid" then
        List.zipWith (fun b e => cfg.alpha * b + cfg.beta * e) bm25_norm emb_norm
      else emb_norm
    let method :=
      if cfg.mode = "bm25" then "bm25"
      else if cfg.mode = "hybrid" then "hybrid"
      else "embeddings"
    let ranked := (pySortDesc Prod.snd (candidates.zip combined)).take cfg.top_k
    ranked.map (fun p =>
      { text := p.1.metadata.text
        score := p.2
        metadata := { p.1.metadata with method := some method } })

/-- Filtering a result list down to one workspace scope — the right-hand
side of the claimed identity `retrieve(scope) == filter(retrieve(unscoped),
scope)`. -/
def filterResultsWs (ws : String) (rs : List RetrieveResult) : List RetrieveResult :=
  rs.filter (fun r => r.metadata.workspace_id = some ws)

/-! ## Reranker — `src/rag/reranker.py` -/

/-- The `metadata` sub-dict of a reranker input candidate (the keys the
reranker reads). -/
structure RRMeta where
  chunk_id : Option String := none
  text : String := ""
  document_name : String := ""
  page_number : Option Int := none
deriving DecidableEq

/-- A candidate dict handed to `CrossEncoderReranker.rerank` (flat keys
plus the metadata fallback keys; a missing string key is modelled by the
falsy default).  Scores are rationals (Python floats). -/
structure RRCand where
  chunk_id : Option String := none
  text : String := ""
  document_name : Option String := none
  page_number : Option Int := none
  score : ℚ := 0
  metadata : RRMeta := {}
deriving DecidableEq

/-- `RerankCandidate` dataclass. -/
structure RerankCandidate where
  id : String
  text : String
  document_name : String
  page_number : Option Int
  hybrid_score : ℚ
deriving DecidableEq

/-- An enriched output dict: the matched original candidate plus the
`ce_score` / `final_score` keys added by `rerank`. -/
structure RROut where
  base : RRCand
  ce_score : ℚ
  final_score : ℚ
deriving DecidableEq

/-- `str(c.get("chunk_id") or md.get("chunk_id") or idx)`. -/
def rcIdOf (c : RRCand) (idx : Nat) : String :=
  match truthyOptStr c.chunk_id with
  | some s => s
  | none =>
    match truthyOptStr c.metadata.chunk_id with
    | some s => s
    | none => toString idx

/-- The `RerankCandidate` built for position `idx`. -/
def buildRC1 (idx : Nat) (c : RRCand) : RerankCandidate :=
  { id := rcIdOf c idx
    text := pyOrStr c.text c.metadata.text
    document_name :=
      match truthyOptStr c.document_name with
      | some s => s
      | none => c.metadata.document_name
    page_number := pyOrOptInt c.page_number c.metadata.page_number
    hybrid_score := c.score }

/-- The `rerank_candidates` list. -/
def buildRC (candidates : List RRCand) : List RerankCandidate :=
  candidates.enum.map (fun p => buildRC1 p.1 p.2)

/-- `if value < 0.0: value = 0.0; if value > 1.0: value = 1.0`. -/
def clamp01 (v : ℚ) : ℚ := if v < 0 then 0 else if v > 1 then 1 else v

/-- `CrossEncoderReranker._score_single(query, text)`.  The OpenAI call is
external: `oracle` returns the raw completion content (`content or ""`);
the parse failure branch (`except ValueError`) yields `0.0`. -/
def scoreSingle (oracle : String → String → String) (query text : String) : ℚ :=
  let raw := pyStrip (oracle query text)
  let value :=
    match parseFloat (commaToDot raw) with
    | some v => v
    | none => 0
  clamp01 value

/-- `str(cand.get("chunk_id") or cand.get("metadata", {}).get("chunk_id") or "")`
— the key used when re-locating the original dict. -/
def candMatchKey (c : RRCand) : String :=
  match truthyOptStr c.chunk_id with
  | some s => s
  | none =>
    match truthyOptStr c.metadata.chunk_id with
    | some s => s
    | none => ""

/-- The "hitta original-dict" loop with its `candidates[0]` fallback. -/
def findOriginal (candidates : List RRCand) (rc : RerankCandidate) : RRCand :=
  match candidates.find? (fun cand =>
      candMatchKey cand = rc.id || cand.text = rc.text) with
  | some c => c
  | none => candidates.headD {}

/-- `CrossEncoderReranker.rerank(query, candidates, top_k_out)` with mix
weight `mix_weight` (config `rerank.mix_weight`). -/
def rerankFn (mix_weight : ℚ) (oracle : String → String → String) (query : String)
    (candidates : List RRCand) (top_k_out : Nat) : List RROut :=
  if candidates = [] then []
  else
    let rcs := buildRC candidates
    let scored := rcs.map (fun rc =>
      let ce := scoreSingle oracle query rc.text
      { base := findOriginal candidates rc
        ce_score := ce
        final_score := mix_weight * ce + (1 - mix_weight) * rc.hybrid_score })
    (pySortDesc RROut.final_score scored).take top_k_out

/-! ## Index persistence — `src/rag/index_store.py` -/

/-- One record of `chunks_meta` (only the keys `needs_rebuild` reads are
modelled; the mtime is optional because `chunk.get("document_mtime")` may
be absent). -/
structure ChunkMeta where
  document_path : Option String := none
  document_mtime : Option ℚ := none
deriving DecidableEq

/-- The persisted `chunks_meta.json` payload: either the legacy bare list
or the timestamped dict (whose `chunks_meta` key may be absent). -/
inductive MetaFile where
  | legacy (chunks : List ChunkMeta)
  | stamped (chunks : Option (List ChunkMeta)) (indexed_at : Option ℚ)
deriving DecidableEq

/-- `chunks_meta` as extracted by `load_index` from either format. -/
def metaChunks : MetaFile → List ChunkMeta
  | .legacy l => l
  | .stamped c _ => c.getD []

/-- `indexed_at` as extracted by `load_index`. -/
def metaStamp : MetaFile → Option ℚ
  | .legacy _ => none
  | .stamped _ t => t

/-- The on-disk state of one workspace directory: each of the three
artifacts (`embeddings.npy`, `chunks_meta.json`, `bm25.pkl`) present or
absent.  The embedding matrix and the pickled BM25 object are opaque to
`needs_rebuild`; they are modelled by their payloads. -/
structure WorkspaceStore where
  embeddings : Option (List (List ℚ)) := none
  meta : Option MetaFile := none
  bm25 : Option (List (List String)) := none
deriving DecidableEq

/-- The dict returned by a successful `load_index`. -/
structure LoadedIndex where
  embeddings : List (List ℚ)
  chunks_meta : List ChunkMeta
  bm25 : List (List String)
  indexed_at : Option ℚ
deriving DecidableEq

/-- `save_index(workspace, embeddings, chunks_meta, bm25_obj)`: writes all
three artifacts, wrapping the metadata in the timestamped format. -/
def saveIndex (embeddings : List (List ℚ)) (chunks_meta : List ChunkMeta)
    (bm25 : List (List String)) (ts : ℚ) : WorkspaceStore :=
  { embeddings := some embeddings
    meta := some (MetaFile.stamped (some chunks_meta) (some ts))
    bm25 := some bm25 }

/-- `load_index(workspace)`: `None` unless all three artifacts exist. -/
def loadIndex (store : WorkspaceStore) : Option LoadedIndex :=
  match store.embeddings, store.meta, store.bm25 with
  | some e, some m, some b =>
    some { embeddings := e, chunks_meta := metaChunks m, bm25 := b, indexed_at := metaStamp m }
  | _, _, _ => none

/-- The truthiness filter `if doc_path:` applied while building
`cached_docs`. -/
def truthyPath (c : ChunkMeta) : Option String := truthyOptStr c.document_path

/-- `cached_docs[p]` after the build loop: the mtime recorded by the LAST
chunk whose (truthy) `document_path` equals `p`; `none` when `p` is not a
key of the dict. -/
def cachedLookup (chunks : List ChunkMeta) (p : String) : Option (Option ℚ) :=
  (chunks.reverse.find? (fun c => truthyPath c = some p)).map (fun c => c.document_mtime)

/-- One entry of `current_docs`: `{"path": ..., "mtime": ...}`. -/
structure DocInfo where
  path : String
  mtime : ℚ
deriving DecidableEq

/-- `needs_rebuild(workspace, current_docs)`. -/
def needsRebuild (store : WorkspaceStore) (current_docs : List DocInfo) : Bool :=
  match loadIndex store with
  | none => true
  | some cache =>
    current_docs.any (fun d =>
      match cachedLookup cache.chunks_meta d.path with
      | none => true
      | some m => decide (m ≠ some d.mtime))

/-! ## Concrete fixtures for the scope-commutation counterexample -/

/-- A retriever configured with `mode = "embeddings"` (one of the three
selectable scoring modes read from the config). -/
noncomputable def cfgEmb : RetrieverCfg :=
  { top_k := 8, mode := "embeddings", alpha := 35 / 100, beta := 65 / 100 }

/-- Item in workspace `w1`. -/
def mdW1 : Metadata := { workspace_id := some "w1", text := "alpha" }

/-- Item in workspace `w2`. -/
def mdW2 : Metadata := { workspace_id := some "w2", text := "beta" }

/-- Indexed item of workspace `w1` with (already unit-norm) embedding. -/
def itemW1 : IndexItem := { id := "a", embedding := [1, 0], metadata := mdW1 }

/-- Indexed item of workspace `w2`. -/
def itemW2 : IndexItem := { id := "b", embedding := [0, 1], metadata := mdW2 }

/-- The query embedding returned by the (external) embeddings client. -/
noncomputable def qC1 : List ℝ := [3 / 5, 4 / 5]

/-! # Helper lemmas -/

theorem allowedItem_none_nil (it : IndexItem) : allowedItem none [] it = true := by
  simp [allowedItem, truthyOptStr]

theorem sumSq_nonneg (v : List ℝ) : 0 ≤ sumSq v := by
  unfold sumSq
  apply List.sum_nonneg
  intro x hx
  obtain ⟨y, _, rfl⟩ := List.mem_map.mp hx
  exact mul_self_nonneg y

theorem sumSq_map_div (v : List ℝ) (c : ℝ) :
    sumSq (v.map (fun x => x / c)) = sumSq v / c ^ 2 := by
  induction v with
  | nil => simp [sumSq]
  | cons x xs ih =>
    simp only [sumSq, List.map_cons, List.sum_cons] at ih ⊢
    rw [ih, div_mul_div_comm, ← sq c, add_div]

theorem sumSq_replicate_zero (d : Nat) : sumSq (List.replicate d (0 : ℝ)) = 0 := by
  simp [sumSq]

theorem dotR_replicate_zero_right (v : List ℝ) (d : Nat) :
    dotR v (List.replicate d 0) = 0 := by
  induction v generalizing d with
  | nil => simp [dotR]
  | cons x xs ih =>
    cases d with
    | zero => simp [dotR]
    | succ d => simpa [dotR, List.replicate_succ] using ih d

theorem dotR_replicate_zero_left (v : List ℝ) (d : Nat) :
    dotR (List.replicate d 0) v = 0 := by
  induction v generalizing d with
  | nil => simp [dotR]
  | cons x xs ih =>
    cases d with
    | zero => simp [dotR]
    | succ d => simpa [dotR, List.replicate_succ] using ih d

theorem normalizeEmb_replicate_zero (d : Nat) :
    normalizeEmb (List.replicate d (0 : ℝ)) = List.replicate d 0 := by
  simp [normalizeEmb, l2norm, sumSq_replicate_zero, Real.sqrt_zero]

theorem mem_upsert {l : List (String × IndexItem)} {k0 : String} {v0 : IndexItem}
    {p : String × IndexItem} (h : p ∈ upsert l k0 v0) : p ∈ l ∨ p = (k0, v0) := by
  induction l with
  | nil => exact Or.inr (by simpa [upsert] using h)
  | cons q rest ih =>
    rw [upsert] at h
    by_cases hk : q.1 = k0
    · rw [if_pos] at h
      · rcases List.mem_cons.mp h with h1 | h1
        · exact Or.inr h1
        · exact Or.inl (List.mem_cons_of_mem _ h1)
      · exact hk
    · rw [if_neg] at h
      · rcases List.mem_cons.mp h with h1 | h1
        · exact Or.inl (h1 ▸ List.mem_cons_self _ _)
        · rcases ih h1 with h2 | h2
          · exact Or.inl (List.mem_cons_of_mem _ h2)
          · exact Or.inr h2
      · exact hk

/-! # Claim theorems -/

/-- Claim C4: for every list of candidate scores in which `max == min`
(including every single-candidate list), the retriever's min-max
normalisation takes the degenerate branch (so it never divides by zero)
and returns `0.0` for every entry when the maximum is `0`, otherwise
`1.0` for every entry. -/
theorem c4_minmax_degenerate {α : Type} [LinearOrderedField α] (scores : List α)
    (hne : scores ≠ []) (heq : sMaxOf scores = sMinOf scores) :
    normScores scores = scores.map (fun _ => if sMaxOf scores = 0 then (0 : α) else 1) := by
  unfold normScores
  rw [if_neg hne]
  simp only [heq, sub_self]
  rw [if_pos (by positivity)]

/-- Witness for C4 at the concrete single/uniform inputs `[5, 5]` (nonzero
max, all ones) and `[0]` (zero max, all zeros). -/
theorem c4_minmax_degenerate_witness :
    normScores [(5 : ℚ), 5] = [1, 1] ∧ normScores [(0 : ℚ)] = [0] := by
  constructor
  · rw [c4_minmax_degenerate [(5 : ℚ), 5] (by decide) (by decide)]
    decide
  · rw [c4_minmax_degenerate [(0 : ℚ)] (by decide) (by decide)]
    decide

/-- Claim C10: when a document-id allow-list is supplied, the retriever's
`allowed` predicate matches `metadata["document_name"]` against the list
whenever `document_name` is present and truthy — in that case membership
of `document_name` alone decides the outcome (so `document_id` is never
consulted), and an allow-list containing only the item's `document_id`
excludes it. -/
theorem c10_document_name_precedence :
    (∀ (it : IndexItem) (n : String) (dids : List String), dids ≠ [] →
      it.metadata.document_name = some n → n ≠ "" →
      (allowedItem none dids it = true ↔ n ∈ dids)) ∧
    (∀ (it : IndexItem) (n i : String),
      it.metadata.document_name = some n → n ≠ "" →
      it.metadata.document_id = some i → n ≠ i →
      allowedItem none [i] it = false) := by
  constructor
  · intro it n dids hd hname hn
    simp [allowedItem, truthyOptStr, pyOrOpt, hname, hn, hd]
  · intro it n i hname hn _hid hni
    simp [allowedItem, truthyOptStr, pyOrOpt, hname, hn, hni]

/-- Witness for C10: an item carrying both `document_name = "doc.pdf"` and
`document_id = "42"` is excluded by the allow-list `["42"]`. -/
theorem c10_document_name_precedence_witness :
    allowedItem none ["42"]
      { id := "c", embedding := [],
        metadata := { workspace_id := some "w", document_name := some "doc.pdf",
                      document_id := some "42", text := "t" } } = false :=
  c10_document_name_precedence.2 _ "doc.pdf" "42" rfl (by decide) rfl (by decide)

/-- Claim C6: every oracle response whose (stripped, comma-normalised)
text fails to parse as a float yields a per-pair score of `0.0` (the
`except ValueError` branch), and reranking under such an oracle still
completes normally, returning the usual `min top_k_out n` results, all
with `ce_score = 0`. -/
theorem c6_malformed_oracle :
    (∀ (oracle : String → String → String) (q t : String),
      parseFloat (commaToDot (pyStrip (oracle q t))) = none →
      scoreSingle oracle q t = 0) ∧
    (∀ (mw : ℚ) (oracle : String → String → String) (q : String)
        (cands : List RRCand) (k : Nat),
      (∀ a b, parseFloat (commaToDot (pyStrip (oracle a b))) = none) →
      (rerankFn mw oracle q cands k).length = min k cands.length ∧
      ∀ r ∈ rerankFn mw oracle q cands k, r.ce_score = 0) := by
  have h1 : ∀ (oracle : String → String → String) (q t : String),
      parseFloat (commaToDot (pyStrip (oracle q t))) = none →
      scoreSingle oracle q t = 0 := by
    intro oracle q t h
    simp [scoreSingle, h, clamp01]
  refine ⟨h1, ?_⟩
  intro mw oracle q cands k hall
  by_cases hc : cands = []
  · subst hc
    simp [rerankFn]
  · constructor
    · simp only [rerankFn, if_neg hc]
      rw [List.length_take, pySortDesc, List.length_insertionSort, List.length_map,
        buildRC, List.length_map, List.enum_length]
    · intro r hr
      simp only [rerankFn, if_neg hc] at hr
      have hr2 := (List.perm_insertionSort _ _).mem_iff.mp (List.mem_of_mem_take hr)
      obtain ⟨rc, _, rfl⟩ := List.mem_map.mp hr2
      exact h1 oracle q rc.text (hall q rc.text)

/-- Witness for C6: the oracle answer `"not a number"` parses to nothing,
scores `0.0`, and a two-candidate rerank under that oracle returns
`min 1 2 = 1` result with `ce_score = 0`. -/
theorem c6_malformed_oracle_witness :
    scoreSingle (fun _ _ => "not a number") "q" "t" = 0 ∧
    (rerankFn (7 / 10) (fun _ _ => "not a number") "q"
        [{ text := "t1", score := 1 }, { text := "t2", score := 0 }] 1).length = min 1 2 := by
  constructor
  · exact c6_malformed_oracle.1 (fun _ _ => "not a number") "q" "t" (by decide)
  · exact (c6_malformed_oracle.2 (7 / 10) (fun _ _ => "not a number") "q"
      [{ text := "t1", score := 1 }, { text := "t2", score := 0 }] 1
      (fun _ _ =>
        (by decide : parseFloat (commaToDot (pyStrip "not a number")) = none))).1

/-- Claim C8: `chunk_text` always makes forward progress — when
`overlap_tokens ≥ target_tokens` the step degrades to
`max(1, target - overlap) = 1`, and since the loop index advances by at
least one word per iteration the number of chunks never exceeds the
number of input words (in particular the recursion terminates, which in
this embedding is witnessed by `chunkText` being a total function). -/
theorem c8_chunk_termination :
    (∀ target overlap : Nat, target ≤ overlap → chunkStep target overlap = 1) ∧
    (∀ (text : String) (target overlap : Nat),
      (chunkText text target overlap).length ≤ (pySplit text).length) := by
  constructor
  · intro target overlap h
    simp [chunkStep, Nat.sub_eq_zero_of_le h]
  · intro text target overlap
    have key : ∀ (ws : List String) (n i idx : Nat), ws.length - i ≤ n →
        (chunkLoop ws target overlap i idx).length ≤ ws.length - i := by
      intro ws n
      induction n with
      | zero =>
        intro i idx h
        rw [chunkLoop]
        rw [dif_neg (by omega)]
        simp
      | succ n ih =>
        intro i idx h
        rw [chunkLoop]
        by_cases hi : i < ws.length
        · rw [dif_pos hi]
          by_cases hlast : ws.length ≤ i + target
          · rw [if_pos hlast]
            simpa using (by omega : 1 ≤ ws.length - i)
          · rw [if_neg hlast]
            have hstep : 1 ≤ chunkStep target overlap := le_max_left _ _
            have hrec := ih (i + chunkStep target overlap) (idx + 1) (by omega)
            simp only [List.length_cons]
            omega
        · rw [dif_neg hi]
          simp
    unfold chunkText
    by_cases hws : pySplit text = []
    · simp [hws]
    · rw [if_neg hws]
      simpa using key (pySplit text) (pySplit text).length 0 0 (by omega)

/-- Witness for C8: with `target = 2 ≤ overlap = 5` the step is `1`, and on
a concrete three-word text the chunk count is bounded by the word count. -/
theorem c8_chunk_termination_witness :
    chunkStep 2 5 = 1 ∧ (chunkText "a b c" 2 5).length ≤ (pySplit "a b c").length :=
  ⟨c8_chunk_termination.1 2 5 (by decide), c8_chunk_termination.2 "a b c" 2 5⟩

/-- `cached_docs` misses a path exactly when no chunk caries it truthily. -/
theorem cachedLookup_eq_none {chunks : List ChunkMeta} {p : String} :
    cachedLookup chunks p = none ↔ ∀ c ∈ chunks, truthyPath c ≠ some p := by
  unfold cachedLookup
  rw [Option.map_eq_none', List.find?_eq_none]
  constructor
  · intro h c hc
    have := h c (List.mem_reverse.mpr hc)
    simpa using this
  · intro h c hc
    have := h c (List.mem_reverse.mp hc)
    simpa using this

/-- Claim C3: `needs_rebuild(workspace, current_docs)` is true exactly when
the snapshot is missing (any of the three artifacts absent, i.e.
`load_index` returns nothing), or some current document's path is not
represented (truthily) in the snapshot's chunk metadata, or the recorded
mtime of a represented document differs from its current mtime; in
particular it is true for a brand-new (empty) workspace store and false
immediately after `save` with matching document paths and mtimes. -/
theorem c3_needs_rebuild :
    (∀ (store : WorkspaceStore) (docs : List DocInfo),
      needsRebuild store docs = true ↔
        loadIndex store = none ∨
        ∃ li, loadIndex store = some li ∧ ∃ d ∈ docs,
          (∀ c ∈ li.chunks_meta, truthyPath c ≠ some d.path) ∨
          ∃ m, cachedLookup li.chunks_meta d.path = some m ∧ m ≠ some d.mtime) ∧
    (∀ store : WorkspaceStore,
      loadIndex store = none ↔
        store.embeddings = none ∨ store.meta = none ∨ store.bm25 = none) ∧
    (∀ docs : List DocInfo, needsRebuild {} docs = true) ∧
    (∀ (e : List (List ℚ)) (chunks : List ChunkMeta) (b : List (List String)) (ts : ℚ)
        (docs : List DocInfo),
      (∀ d ∈ docs, cachedLookup chunks d.path = some (some d.mtime)) →
      needsRebuild (saveIndex e chunks b ts) docs = false) := by
  refine ⟨?_, ?_, ?_, ?_⟩
  · intro store docs
    unfold needsRebuild
    cases hload : loadIndex store with
    | none => simp
    | some li =>
      simp only [List.any_eq_true]
      constructor
      · rintro ⟨d, hd, hpred⟩
        refine Or.inr ⟨li, rfl, d, hd, ?_⟩
        cases hcl : cachedLookup li.chunks_meta d.path with
        | none => exact Or.inl (cachedLookup_eq_none.mp hcl)
        | some m =>
          rw [hcl] at hpred
          exact Or.inr ⟨m, rfl, by simpa using hpred⟩
      · rintro (h | ⟨li2, hli2, d, hd, hcase⟩)
        · exact absurd h (by simp)
        · obtain rfl : li2 = li := (Option.some_inj.mp hli2).symm
          refine ⟨d, hd, ?_⟩
          rcases hcase with hnone | ⟨m, hm, hne⟩
          · rw [cachedLookup_eq_none.mpr hnone]
          · rw [hm]
            simpa using hne
  · intro store
    unfold loadIndex
    rcases store with ⟨e, m, b⟩
    cases e <;> cases m <;> cases b <;> simp
  · intro docs
    rfl
  · intro e chunks b ts docs h
    unfold needsRebuild saveIndex loadIndex
    simp only [List.any_eq_false]
    intro d hd
    have := h d hd
    simp only [metaChunks, Option.getD_some] at this ⊢
    rw [this]
    simp

/-- Witness for C3: after saving chunk metadata recording `d.txt` at mtime
`5`, `needs_rebuild` with the matching current document list is false. -/
theorem c3_needs_rebuild_witness :
    needsRebuild
      (saveIndex [] [{ document_path := some "d.txt", document_mtime := some 5 }] [] 0)
      [{ path := "d.txt", mtime := 5 }] = false :=
  c3_needs_rebuild.2.2.2 [] [{ document_path := some "d.txt", document_mtime := some 5 }] [] 0
    [{ path := "d.txt", mtime := 5 }] (by decide)

/-- Counterexample to claim C2 as stated: adding the all-zero embedding
with normalisation enabled stores it unchanged (the `or 1.0` fallback
divides by one), so the stored norm is `0`, not approximately `1`. -/
theorem c2_zero_vector_counterexample :
    (addStored true { id := "z", embedding := [0, 0], metadata := {} }).embedding = [0, 0] ∧
    sumSq ((addStored true { id := "z", embedding := [0, 0], metadata := {} }).embedding) ≠ 1 := by
  have hemb : (addStored true { id := "z", embedding := [(0 : ℝ), 0], metadata := {} }).embedding
      = [0, 0] := by
    simp [addStored, normalizeEmb, l2norm, sumSq]
  refine ⟨hemb, ?_⟩
  rw [hemb]
  norm_num [sumSq]

/-- Claim C2 as amended: for every item whose input embedding has nonzero
norm, the embedding stored by `InMemoryIndex.add` under normalisation has
L2 norm exactly `1` (sum of squares `1` in the real-number model); the
all-zero embedding is the single exception, stored unchanged with norm
`0`.  The second conjunct ties the per-item statement to `add` itself:
every entry of the store after `add` is either an old entry or the
`addStored` image of one of the added items. -/
theorem c2_unit_norm_amended :
    (∀ it : IndexItem, sumSq it.embedding ≠ 0 →
      sumSq ((addStored true it).embedding) = 1) ∧
    (∀ (store : List (String × IndexItem)) (new : List IndexItem) (k : String) (v : IndexItem),
      (k, v) ∈ addItems true store new →
      (k, v) ∈ store ∨ ∃ it ∈ new, k = it.id ∧ v = addStored true it) := by
  constructor
  · intro it h
    have hpos : 0 < sumSq it.embedding := lt_of_le_of_ne (sumSq_nonneg _) (Ne.symm h)
    have hsqrt : Real.sqrt (sumSq it.embedding) ≠ 0 :=
      ne_of_gt (Real.sqrt_pos.mpr hpos)
    simp only [addStored, if_pos, normalizeEmb, l2norm, if_neg hsqrt]
    rw [sumSq_map_div, Real.sq_sqrt (le_of_lt hpos)]
    exact div_self h
  · intro store new
    induction new generalizing store with
    | nil => intro k v h; exact Or.inl h
    | cons it rest ih =>
      intro k v h
      rw [addItems, List.foldl_cons] at h
      rcases ih (upsert store it.id (addStored true it)) k v h with h1 | h1
      · rcases mem_upsert h1 with h2 | h2
        · exact Or.inl h2
        · refine Or.inr ⟨it, List.mem_cons_self _ _, ?_, ?_⟩
          · exact congrArg Prod.fst h2
          · exact congrArg Prod.snd h2
      · obtain ⟨it2, hit2, hk, hv⟩ := h1
        exact Or.inr ⟨it2, List.mem_cons_of_mem _ hit2, hk, hv⟩

/-- Witness for C2 (amended) at the embedding `[3, 4]` (norm `5 ≠ 0`): the
stored vector has sum of squares exactly `1`. -/
theorem c2_unit_norm_amended_witness :
    sumSq ([3, 4] : List ℝ) ≠ 0 ∧
    sumSq ((addStored true { id := "a", embedding := [3, 4], metadata := {} }).embedding) = 1 :=
  ⟨by norm_num [sumSq],
   c2_unit_norm_amended.1 { id := "a", embedding := [3, 4], metadata := {} }
     (by norm_num [sumSq])⟩

/-- Claim C9: neither `InMemoryIndex.add` nor `InMemoryIndex.query`
divides by zero on a zero-norm embedding — the divisor falls back to `1`,
the all-zero vector is stored (or used as the query) unchanged, and its
dot product against every vector is `0`, so every hit returned for an
all-zero query has score `0`. -/
theorem c9_zero_norm_safety :
    (∀ d : Nat, normalizeEmb (List.replicate d (0 : ℝ)) = List.replicate d 0) ∧
    (∀ (id : String) (md : Metadata) (d : Nat),
      (addStored true { id := id, embedding := List.replicate d 0, metadata := md }).embedding
        = List.replicate d 0) ∧
    (∀ (v : List ℝ) (d : Nat),
      dotR v (List.replicate d 0) = 0 ∧ dotR (List.replicate d 0) v = 0) ∧
    (∀ (normalize : Bool) (items : List (String × IndexItem)) (d k : Nat)
        (flt : List (String × String)),
      ∀ h ∈ queryIndex normalize items (List.replicate d 0) k flt, h.score = 0) := by
  refine ⟨normalizeEmb_replicate_zero, ?_, ?_, ?_⟩
  · intro id md d
    simp [addStored, normalizeEmb_replicate_zero]
  · intro v d
    exact ⟨dotR_replicate_zero_right v d, dotR_replicate_zero_left v d⟩
  · intro normalize items d k flt h hmem
    unfold queryIndex at hmem
    by_cases hempty : items.isEmpty
    · rw [if_pos hempty] at hmem
      exact absurd hmem (List.not_mem_nil h)
    · rw [if_neg hempty] at hmem
      have hq : (if normalize then normalizeEmb (List.replicate d 0)
          else List.replicate d (0 : ℝ)) = List.replicate d 0 := by
        cases normalize <;> simp [normalizeEmb_replicate_zero]
      rw [hq] at hmem
      have hmem2 := (List.perm_insertionSort _ _).mem_iff.mp (List.mem_of_mem_take hmem)
      obtain ⟨it, _, hit⟩ := List.mem_filterMap.mp hmem2
      by_cases hf : (!flt.isEmpty && !matchFilter it.metadata flt) = true
      · rw [if_pos hf] at hit
        exact absurd hit (by simp)
      · rw [if_neg hf] at hit
        have := Option.some_inj.mp hit
        rw [← this]
        exact dotR_replicate_zero_left it.embedding d

/-- Witness for C9: a concrete one-item index queried with the zero vector
returns the item with score `0`. -/
theorem c9_zero_norm_safety_witness :
    { id := "a", score := (0 : ℝ), metadata := {} } ∈
      queryIndex true [("a", { id := "a", embedding := [1], metadata := {} })]
        (List.replicate 1 0) 5 [] ∧
    ∀ h ∈ queryIndex true [("a", { id := "a", embedding := [1], metadata := {} })]
        (List.replicate 1 0) 5 [], IndexHit.score h = 0 := by
  constructor
  · have : queryIndex true [("a", { id := "a", embedding := [(1 : ℝ)], metadata := {} })]
        (List.replicate 1 0) 5 [] =
        [{ id := "a", score := 0, metadata := {} }] := by
      norm_num [queryIndex, normalizeEmb, l2norm, sumSq, dotR, matchFilter, pySortDesc,
        List.insertionSort, List.orderedInsert, List.replicate]
    rw [this]
    exact List.mem_singleton.mpr rfl
  · exact c9_zero_norm_safety.2.2.2 true
      [("a", { id := "a", embedding := [1], metadata := {} })] 1 5 []

/-- A word of the window `[i, i + target)` belongs to the chunk segment
`words[i : i + target]`. -/
theorem mem_drop_take {ws : List String} {i j target : Nat} (hij : i ≤ j)
    (hjl : j < ws.length) (hjt : j < i + target) :
    ws[j] ∈ (ws.drop i).take target := by
  have h1 : j - i < ((ws.drop i).take target).length := by
    simp only [List.length_take, List.length_drop, lt_min_iff]
    omega
  have h2 : ((ws.drop i).take target).get ⟨j - i, h1⟩ = ws[j] := by
    simp only [List.get_eq_getElem, List.getElem_take, List.getElem_drop]
    congr 1
    omega
  rw [← h2]
  exact List.get_mem _ _ h1

/-- Every chunk emitted by the loop carries a window segment
`words[j : j + target]` for some start `j`. -/
theorem chunkLoop_words (ws : List String) (target overlap : Nat) :
    ∀ (n i idx : Nat), ws.length - i ≤ n →
      ∀ c ∈ chunkLoop ws target overlap i idx, ∃ j, c.words = (ws.drop j).take target := by
  intro n
  induction n with
  | zero =>
    intro i idx hn c hc
    rw [chunkLoop, dif_neg (by omega)] at hc
    exact absurd hc (List.not_mem_nil c)
  | succ n ih =>
    intro i idx hn c hc
    rw [chunkLoop] at hc
    by_cases hi : i < ws.length
    · rw [dif_pos hi] at hc
      by_cases hlast : ws.length ≤ i + target
      · rw [if_pos hlast] at hc
        obtain rfl := List.mem_singleton.mp hc
        exact ⟨i, rfl⟩
      · rw [if_neg hlast] at hc
        rcases List.mem_cons.mp hc with rfl | hc2
        · exact ⟨i, rfl⟩
        · have hstep : 1 ≤ chunkStep target overlap := le_max_left _ _
          exact ih (i + chunkStep target overlap) (idx + 1) (by omega) c hc2
    · rw [dif_neg hi] at hc
      exact absurd hc (List.not_mem_nil c)

/-- Coverage: provided the step never exceeds the window size, every word
index at or beyond the current position lands in some emitted chunk. -/
theorem chunkLoop_coverage (ws : List String) (target overlap : Nat)
    (hstep2 : chunkStep target overlap ≤ target) :
    ∀ (n i idx : Nat), ws.length - i ≤ n → i < ws.length →
      ∀ (j : Nat) (hj : j < ws.length), i ≤ j →
        ∃ c ∈ chunkLoop ws target overlap i idx, ws[j] ∈ c.words := by
  intro n
  induction n with
  | zero => intro i idx hn hi; omega
  | succ n ih =>
    intro i idx hn hi j hj hij
    rw [chunkLoop, dif_pos hi]
    by_cases hlast : ws.length ≤ i + target
    · rw [if_pos hlast]
      exact ⟨_, List.mem_singleton.mpr rfl, mem_drop_take hij hj (by omega)⟩
    · rw [if_neg hlast]
      by_cases hjt : j < i + target
      · exact ⟨_, List.mem_cons_self _ _, mem_drop_take hij hj hjt⟩
      · have hstep1 : 1 ≤ chunkStep target overlap := le_max_left _ _
        obtain ⟨c, hc, hcw⟩ := ih (i + chunkStep target overlap) (idx + 1)
          (by omega) (by omega) j hj (by omega)
        exact ⟨c, List.mem_cons_of_mem _ hc, hcw⟩

/-- Claim C7: for every input text, every `target_tokens ≥ 1` and every
`overlap_tokens < target_tokens`, `chunk_text` covers every input word
with at least one chunk, every chunk holds at most `target_tokens` words,
and empty input (no words) yields the empty sequence. -/
theorem c7_chunk_coverage (text : String) (target overlap : Nat)
    (ht : 1 ≤ target) (_ho : overlap < target) :
    (∀ w ∈ pySplit text, ∃ c ∈ chunkText text target overlap, w ∈ c.words) ∧
    (∀ c ∈ chunkText text target overlap, c.words.length ≤ target) ∧
    (pySplit text = [] → chunkText text target overlap = []) := by
  have hstep2 : chunkStep target overlap ≤ target := max_le ht (Nat.sub_le _ _)
  refine ⟨?_, ?_, ?_⟩
  · intro w hw
    have hne : pySplit text ≠ [] := List.ne_nil_of_mem hw
    obtain ⟨j, hj, rfl⟩ := List.mem_iff_getElem.mp hw
    unfold chunkText
    rw [if_neg hne]
    exact chunkLoop_coverage (pySplit text) target overlap hstep2
      (pySplit text).length 0 0 (by omega) (by omega) j hj (Nat.zero_le _)
  · intro c hc
    unfold chunkText at hc
    by_cases hne : pySplit text = []
    · rw [if_pos hne] at hc
      exact absurd hc (List.not_mem_nil c)
    · rw [if_neg hne] at hc
      obtain ⟨j, hw⟩ := chunkLoop_words (pySplit text) target overlap
        (pySplit text).length 0 0 (by omega) c hc
      rw [hw]
      exact List.length_take_le _ _
  · intro h
    simp [chunkText, h]

/-- Witness for C7 at `text = "a b c"`, `target = 2`, `overlap = 1`. -/
theorem c7_chunk_coverage_witness :
    (∀ w ∈ pySplit "a b c", ∃ c ∈ chunkText "a b c" 2 1, w ∈ c.words) ∧
    (∀ c ∈ chunkText "a b c" 2 1, c.words.length ≤ 2) ∧
    (pySplit "a b c" = [] → chunkText "a b c" 2 1 = []) :=
  c7_chunk_coverage "a b c" 2 1 (by decide) (by decide)

/-- Claim C5: for every non-empty candidate list and every `top_k_out`,
`CrossEncoderReranker.rerank` returns at most `top_k_out` results and
never more than the input width, sorted descending by blended
`final_score`, and every returned blended score is
`mix_weight * oracle_score + (1 - mix_weight) * hybrid_score` for one of
the input candidates (the oracle score being `_score_single` of that
candidate's text). -/
theorem c5_rerank_contract (mw : ℚ) (oracle : String → String → String) (q : String)
    (cands : List RRCand) (k : Nat) (hne : cands ≠ []) :
    (rerankFn mw oracle q cands k).length ≤ k ∧
    (rerankFn mw oracle q cands k).length ≤ cands.length ∧
    List.Sorted (fun a b => RROut.final_score b ≤ RROut.final_score a)
      (rerankFn mw oracle q cands k) ∧
    ∀ r ∈ rerankFn mw oracle q cands k, ∃ j, ∃ hj : j < cands.length,
      r.final_score = mw * scoreSingle oracle q
          (pyOrStr (cands.get ⟨j, hj⟩).text (cands.get ⟨j, hj⟩).metadata.text)
        + (1 - mw) * (cands.get ⟨j, hj⟩).score := by
  have hlen : (rerankFn mw oracle q cands k).length = min k cands.length := by
    simp only [rerankFn, if_neg hne]
    rw [List.length_take, pySortDesc, List.length_insertionSort, List.length_map,
      buildRC, List.length_map, List.enum_length]
  refine ⟨hlen ▸ min_le_left _ _, hlen ▸ min_le_right _ _, ?_, ?_⟩
  · haveI : IsTotal RROut (fun a b => RROut.final_score b ≤ RROut.final_score a) :=
      ⟨fun a b => le_total _ _⟩
    haveI : IsTrans RROut (fun a b => RROut.final_score b ≤ RROut.final_score a) :=
      ⟨fun _ _ _ hab hbc => le_trans hbc hab⟩
    simp only [rerankFn, if_neg hne, pySortDesc]
    exact (List.sorted_insertionSort _ _).sublist (List.take_sublist _ _)
  · intro r hr
    simp only [rerankFn, if_neg hne] at hr
    have hr2 := (List.perm_insertionSort _ _).mem_iff.mp (List.mem_of_mem_take hr)
    obtain ⟨rc, hrc, rfl⟩ := List.mem_map.mp hr2
    obtain ⟨p, hp, rfl⟩ := List.mem_map.mp hrc
    obtain ⟨hlt, hget⟩ := List.getElem?_eq_some.mp (List.mem_enum_iff_getElem?.mp hp)
    refine ⟨p.1, hlt, ?_⟩
    simp [buildRC1, List.get_eq_getElem, hget]

/-- Witness for C5 on a concrete single-candidate list with oracle answer
`"1"` and `top_k_out = 1`. -/
theorem c5_rerank_contract_witness :
    (rerankFn (7 / 10) (fun _ _ => "1") "q" [{ text := "t", score := 1 / 2 }] 1).length ≤ 1 ∧
    (rerankFn (7 / 10) (fun _ _ => "1") "q" [{ text := "t", score := 1 / 2 }] 1).length ≤
      ([{ text := "t", score := 1 / 2 }] : List RRCand).length ∧
    List.Sorted (fun a b => RROut.final_score b ≤ RROut.final_score a)
      (rerankFn (7 / 10) (fun _ _ => "1") "q" [{ text := "t", score := 1 / 2 }] 1) ∧
    ∀ r ∈ rerankFn (7 / 10) (fun _ _ => "1") "q" [{ text := "t", score := 1 / 2 }] 1,
      ∃ j, ∃ hj : j < ([{ text := "t", score := 1 / 2 }] : List RRCand).length,
        r.final_score = 7 / 10 * scoreSingle (fun _ _ => "1") "q"
            (pyOrStr (([{ text := "t", score := 1 / 2 }] : List RRCand).get ⟨j, hj⟩).text
              (([{ text := "t", score := 1 / 2 }] : List RRCand).get ⟨j, hj⟩).metadata.text)
          + (1 - 7 / 10) * (([{ text := "t", score := 1 / 2 }] : List RRCand).get ⟨j, hj⟩).score :=
  c5_rerank_contract (7 / 10) (fun _ _ => "1") "q" [{ text := "t", score := 1 / 2 }] 1
    (by simp)

set_option maxHeartbeats 2000000 in
/-- Counterexample to claim C1 as stated: with two items in different
workspaces and a query embedding closer to the out-of-scope item,
`retrieve` scoped to `w1` returns its item with (min-max renormalised)
score `1.0`, while filtering the unscoped result down to `w1` keeps the
same item with score `0.0` — the two result lists differ. -/
theorem c1_scope_filter_counterexample :
    retrieve cfgEmb [itemW1, itemW2] qC1 "q" (some "w1") [] ≠
      filterResultsWs "w1" (retrieve cfgEmb [itemW1, itemW2] qC1 "q" none []) := by
  have hq : Real.sqrt (sumSq qC1) = 1 := by
    rw [show sumSq qC1 = 1 by norm_num [sumSq, qC1]]
    exact Real.sqrt_one
  have hcand1 : List.filter (allowedItem (some "w1") []) [itemW1, itemW2] = [itemW1] := by
    simp [allowedItem, truthyOptStr, itemW1, itemW2, mdW1, mdW2]
  have hcand2 : List.filter (allowedItem none []) [itemW1, itemW2] = [itemW1, itemW2] :=
    List.filter_eq_self.mpr (fun a _ => allowedItem_none_nil a)
  have e1 : itemW1.embedding = [(1 : ℝ), 0] := rfl
  have e2 : itemW2.embedding = [(0 : ℝ), 1] := rfl
  have m1 : itemW1.metadata = mdW1 := rfl
  have m2 : itemW2.metadata = mdW2 := rfl
  have t1 : mdW1.text = "alpha" := rfl
  have t2 : mdW2.text = "beta" := rfl
  have hdot1 : dotR [(3 : ℝ) / 5, 4 / 5] [1, 0] = 3 / 5 := by norm_num [dotR]
  have hdot2 : dotR [(3 : ℝ) / 5, 4 / 5] [0, 1] = 4 / 5 := by norm_num [dotR]
  have hns1 : normScores [(3 : ℝ) / 5] = [1] := by
    rw [normScores, if_neg (by simp)]
    simp only [sMinOf, sMaxOf, List.foldl_nil]
    rw [if_pos (by norm_num), List.map_cons, List.map_nil, if_neg (by norm_num)]
  have hns2 : normScores [(3 : ℝ) / 5, 4 / 5] = [0, 1] := by
    have hmn : min ((3 : ℝ) / 5) (4 / 5) = 3 / 5 := min_eq_left (by norm_num)
    have hmx : max ((3 : ℝ) / 5) (4 / 5) = 4 / 5 := max_eq_right (by norm_num)
    rw [normScores, if_neg (by simp)]
    simp only [sMinOf, sMaxOf, List.foldl_cons, List.foldl_nil, hmn, hmx]
    rw [if_neg (by norm_num)]
    norm_num
  have hsort1 : pySortDesc Prod.snd [(itemW1, (1 : ℝ))] = [(itemW1, 1)] := by
    simp [pySortDesc, List.insertionSort, List.orderedInsert]
  have hsort2 : pySortDesc Prod.snd [(itemW1, (0 : ℝ)), (itemW2, 1)] =
      [(itemW2, 1), (itemW1, 0)] := by
    rw [pySortDesc]
    simp only [List.insertionSort, List.orderedInsert]
    rw [if_neg (by norm_num)]
  have h1 : retrieve cfgEmb [itemW1, itemW2] qC1 "q" (some "w1") [] =
      [{ text := "alpha", score := 1,
         metadata := { mdW1 with method := some "embeddings" } }] := by
    rw [retrieve, hcand1]
    simp only [cfgEmb, l2norm, hq]
    simp [qC1, e1, m1, t1, hdot1, hns1, hsort1]
  have h2 : retrieve cfgEmb [itemW1, itemW2] qC1 "q" none [] =
      [{ text := "beta", score := 1,
         metadata := { mdW2 with method := some "embeddings" } },
       { text := "alpha", score := 0,
         metadata := { mdW1 with method := some "embeddings" } }] := by
    rw [retrieve, hcand2]
    simp only [cfgEmb, l2norm, hq]
    simp [qC1, e1, e2, m1, m2, t1, t2, hdot1, hdot2, hns2, hsort2]
  rw [h1, h2]
  simp [filterResultsWs, mdW1, mdW2]

/-- Claim C1 as amended: what commutes with scoping is the candidate
selection — the scoped candidate pool equals the unscoped pool filtered
by the same scope predicate — while the returned scores are recomputed
(min-max normalised) over the scoped pool, so the full result-list
equality `retrieve(scope) == filter(retrieve(unscoped), scope)` does not
hold. -/
theorem c1_filter_commute_amended (items : List IndexItem) (ws : Option String)
    (dids : List String) :
    items.filter (allowedItem ws dids) =
      (items.filter (allowedItem none [])).filter (allowedItem ws dids) := by
  rw [List.filter_eq_self.mpr (fun a _ => allowedItem_none_nil a)]

end RagSintari
